/-
Verification of the PerformanceCounters library (shallow embedding).

The definitions below are translated from
  src/PerformanceCounters/PerformanceCounters.cpp
  src/PerformanceCounters/PerformanceCountersPrivate.h
One structure/function per C++ entity, with the same names where possible.

Machine integers are modelled as mathematical Int with explicit wraparound:
the global counters are std::atomic<int64_t> (TotalNanoseconds) and
std::atomic<int> (CallCount); C++ guarantees that atomic fetch_add on a
signed integer wraps modulo 2^n (two's complement), which `wrap64` and
`wrap32` implement.  The double-valued queries (total/average time) are
modelled over the rationals: the exact value of the division the code
performs; IEEE rounding of the final double is not modelled.  The
rendering of the double `totalSec` by operator<< is kept abstract as an
explicit `fmt : Int -> String` parameter (a pure function of the loaded
TotalNanoseconds value), since both GetResultsAsString and GetResults use
the identical rendering.
-/
import Mathlib

namespace PerfCounters

/-- Embeds struct FunctionCounters (PerformanceCountersPrivate.h:37-41):
`std::atomic<int64_t> TotalNanoseconds; std::atomic<int> CallCount;`.
Values are the signed integers currently stored. -/
structure FunctionCounters where
  TotalNanoseconds : Int
  CallCount : Int
deriving DecidableEq

/-- Embeds struct LocalCounters (PerformanceCountersPrivate.h:49-53):
`int64_t Elapsed = 0; int Calls = 0;`. -/
structure LocalCounters where
  Elapsed : Int
  Calls : Int
deriving DecidableEq

/-- Embeds struct ThreadAccumulator's data (PerformanceCountersPrivate.h:64-73):
`std::vector<LocalCounters> Counters;`. -/
structure ThreadAccumulator where
  Counters : List LocalCounters
deriving DecidableEq

/-- Embeds struct FunctionRegistry::Impl (PerformanceCountersPrivate.h:94-111).
The unordered_map NameToId is modelled as an association list with unique
keys (lookup = first match); Accumulators holds opaque thread tokens in
place of the C++ pointers; the mutexes carry no data and are omitted. -/
structure RegistryImpl where
  NameToId : List (String × Int)
  Names : List String
  Counters : List FunctionCounters
  Count : Int
  Accumulators : List Nat
  Destroyed : Bool
deriving DecidableEq

/-- The registry as built by FunctionRegistry::FunctionRegistry() /
Impl's member initializers: everything empty, Count = 0, Destroyed = false. -/
def emptyRegistry : RegistryImpl :=
  { NameToId := [], Names := [], Counters := [], Count := 0,
    Accumulators := [], Destroyed := false }

/-- Two's-complement wraparound of a signed 64-bit atomic fetch_add result. -/
def wrap64 (x : Int) : Int := (x + 2 ^ 63) % 2 ^ 64 - 2 ^ 63

/-- Two's-complement wraparound of a signed 32-bit (int) atomic fetch_add result. -/
def wrap32 (x : Int) : Int := (x + 2 ^ 31) % 2 ^ 32 - 2 ^ 31

/-- unordered_map<string,int>::find, first-match lookup in the association list. -/
def lookupName : List (String × Int) → String → Option Int
  | [], _ => none
  | (k, v) :: rest, name => if k = name then some v else lookupName rest name

/-- Embeds FunctionRegistry::RegisterFunction (PerformanceCounters.cpp:320-336).
Returns the id and the updated registry. -/
def RegisterFunction (reg : RegistryImpl) (name : String) : Int × RegistryImpl :=
  match lookupName reg.NameToId name with
  | some id => (id, reg)
  | none =>
    let id : Int := (reg.Names.length : Int)
    (id, { reg with
            Names := reg.Names ++ [name],
            NameToId := reg.NameToId ++ [(name, id)],
            Counters := reg.Counters ++ [⟨0, 0⟩],
            Count := id + 1 })

/-- Embeds FunctionRegistry::FindFunction (PerformanceCounters.cpp:338-347). -/
def FindFunction (reg : RegistryImpl) (name : String) : Int :=
  (lookupName reg.NameToId name).getD (-1)

/-- Embeds FunctionRegistry::GetFunctionCount (PerformanceCounters.cpp:349-352). -/
def GetFunctionCount (reg : RegistryImpl) : Int := reg.Count

/-- Embeds ThreadAccumulator::EnsureCapacity (PerformanceCounters.cpp:380-386):
`if ((int)Counters.size() < size) Counters.resize(size);` — resize
value-initializes the new slots to {0,0}. -/
def EnsureCapacity (acc : ThreadAccumulator) (size : Int) : ThreadAccumulator :=
  if (acc.Counters.length : Int) < size then
    ⟨acc.Counters ++ List.replicate (size.toNat - acc.Counters.length) ⟨0, 0⟩⟩
  else acc

/-- Embeds one full ScopedTimerHelper lifetime for a given id with measured
elapsed nanoseconds (PerformanceCounters.cpp:420-446): the constructor runs
TlsAccum.EnsureCapacity(id+1); the destructor does
`local.Elapsed += elapsed; local.Calls++;` on slot id. -/
def scopedTimerCall (acc : ThreadAccumulator) (id : Nat) (elapsed : Int) :
    ThreadAccumulator :=
  let a := EnsureCapacity acc ((id : Int) + 1)
  let s := a.Counters.getD id ⟨0, 0⟩
  ⟨a.Counters.set id ⟨s.Elapsed + elapsed, s.Calls + 1⟩⟩

/-- N consecutive scoped-timer calls on one thread, one per listed elapsed time. -/
def scopedTimerCalls (acc : ThreadAccumulator) (id : Nat) :
    List Int → ThreadAccumulator
  | [] => acc
  | e :: es => scopedTimerCalls (scopedTimerCall acc id e) id es

/-- The loop body of ThreadAccumulator::Flush (PerformanceCounters.cpp:388-404),
walking global and local counter lists in step for
`i < count && i < Counters.size()`; fuel is the registry's published count.
The case of more fuel and locals than global counters is out-of-bounds in
C++ (it cannot arise while Count <= Counters.size()); it is modelled as
stopping the loop. -/
def flushAux : Nat → List FunctionCounters → List LocalCounters →
    List FunctionCounters × List LocalCounters
  | 0, gs, ls => (gs, ls)
  | _ + 1, gs, [] => (gs, [])
  | _ + 1, [], ls => ([], ls)
  | n + 1, g :: gs, l :: ls =>
    let r := flushAux n gs ls
    if l.Elapsed ≠ 0 ∨ l.Calls ≠ 0 then
      (⟨wrap64 (g.TotalNanoseconds + l.Elapsed), wrap32 (g.CallCount + l.Calls)⟩ :: r.1,
        ⟨0, 0⟩ :: r.2)
    else (g :: r.1, l :: r.2)

/-- Embeds ThreadAccumulator::Flush (PerformanceCounters.cpp:388-404):
non-empty local slots are fetch-added (relaxed) into the matching global
counter and zeroed; returns the updated registry and accumulator. -/
def Flush (reg : RegistryImpl) (acc : ThreadAccumulator) :
    RegistryImpl × ThreadAccumulator :=
  let r := flushAux reg.Count.toNat reg.Counters acc.Counters
  ({ reg with Counters := r.1 }, ⟨r.2⟩)

/-- Embeds PerformanceCounters::CollectAll (PerformanceCounters.cpp:109-117):
under the accumulator-list lock, flush every live accumulator in order. -/
def CollectAll (reg : RegistryImpl) :
    List ThreadAccumulator → RegistryImpl × List ThreadAccumulator
  | [] => (reg, [])
  | a :: as =>
    let r := Flush reg a
    let rest := CollectAll r.1 as
    (rest.1, r.2 :: rest.2)

/-- Embeds ThreadAccumulator::~ThreadAccumulator (PerformanceCounters.cpp:367-378):
an unconditional final Flush, then — only if the registry's Destroyed flag
is not set — erase this accumulator's token from the live list
(std::remove erases every occurrence, preserving the order of the rest). -/
def accumulatorDtor (reg : RegistryImpl) (token : Nat) (acc : ThreadAccumulator) :
    RegistryImpl :=
  let reg1 := (Flush reg acc).1
  if reg1.Destroyed then reg1
  else { reg1 with Accumulators := reg1.Accumulators.filter (fun t => t ≠ token) }

/-- The loop of PerformanceCounters::ResetAllCounters (PerformanceCounters.cpp:169-179):
store 0 into both atomics of counters 0..count-1. -/
def resetAux : Nat → List FunctionCounters → List FunctionCounters
  | 0, gs => gs
  | _ + 1, [] => []
  | n + 1, _ :: gs => ⟨0, 0⟩ :: resetAux n gs

/-- Embeds PerformanceCounters::ResetAllCounters (PerformanceCounters.cpp:169-179). -/
def ResetAllCounters (reg : RegistryImpl) : RegistryImpl :=
  { reg with Counters := resetAux reg.Count.toNat reg.Counters }

/-- Embeds PerformanceCounters::GetFunctionName (PerformanceCounters.cpp:194-202). -/
def GetFunctionName (reg : RegistryImpl) (id : Int) : String :=
  if id < 0 ∨ GetFunctionCount reg ≤ id then ""
  else reg.Names.getD id.toNat ""

/-- Embeds PerformanceCounters::GetFunctionId (PerformanceCounters.cpp:205-208). -/
def GetFunctionId (reg : RegistryImpl) (name : String) : Int :=
  FindFunction reg name

/-- Embeds PerformanceCounters::GetFunctionCallCount(int) (PerformanceCounters.cpp:211-219). -/
def GetFunctionCallCount (reg : RegistryImpl) (id : Int) : Int :=
  if id < 0 ∨ GetFunctionCount reg ≤ id then 0
  else (reg.Counters.getD id.toNat ⟨0, 0⟩).CallCount

/-- Embeds PerformanceCounters::GetFunctionCallCount(const char*)
(PerformanceCounters.cpp:222-226). -/
def GetFunctionCallCountByName (reg : RegistryImpl) (name : String) : Int :=
  GetFunctionCallCount reg (GetFunctionId reg name)

/-- Embeds PerformanceCounters::GetFunctionTotalTime(int)
(PerformanceCounters.cpp:229-238); the double division totalNs / 1e9 is
modelled exactly over the rationals. -/
def GetFunctionTotalTime (reg : RegistryImpl) (id : Int) : ℚ :=
  if id < 0 ∨ GetFunctionCount reg ≤ id then 0
  else ((reg.Counters.getD id.toNat ⟨0, 0⟩).TotalNanoseconds : ℚ) / 1000000000

/-- Embeds PerformanceCounters::GetFunctionTotalTime(const char*)
(PerformanceCounters.cpp:241-245). -/
def GetFunctionTotalTimeByName (reg : RegistryImpl) (name : String) : ℚ :=
  GetFunctionTotalTime reg (GetFunctionId reg name)

/-- Embeds PerformanceCounters::GetFunctionAverageTime(int)
(PerformanceCounters.cpp:248-262); the double division totalNs / calls is
modelled exactly over the rationals. -/
def GetFunctionAverageTime (reg : RegistryImpl) (id : Int) : ℚ :=
  if id < 0 ∨ GetFunctionCount reg ≤ id then 0
  else
    let calls := (reg.Counters.getD id.toNat ⟨0, 0⟩).CallCount
    if calls = 0 then 0
    else ((reg.Counters.getD id.toNat ⟨0, 0⟩).TotalNanoseconds : ℚ) / (calls : ℚ)

/-- Embeds PerformanceCounters::GetFunctionAverageTime(const char*)
(PerformanceCounters.cpp:265-269). -/
def GetFunctionAverageTimeByName (reg : RegistryImpl) (name : String) : ℚ :=
  GetFunctionAverageTime reg (GetFunctionId reg name)

/-- One loop iteration of GetResultsAsString (PerformanceCounters.cpp:128-143):
the text emitted for one registered function.  `fmt` renders the double
totalSec = totalNs / 1e9 from the loaded TotalNanoseconds; toString on Int
matches operator<< on int/int64_t; `totalNs / calls` is C++ signed integer
division, i.e. truncation toward zero (Int.tdiv). -/
def entryString (fmt : Int → String) (name : String) (c : FunctionCounters) :
    String :=
  name ++ ":\n" ++
  "  Total calls:   " ++ toString c.CallCount ++ "\n" ++
  "  Total time:    " ++ fmt c.TotalNanoseconds ++ " s\n" ++
  (if 0 < c.CallCount then
    "  Avg per call:  " ++ toString (c.TotalNanoseconds.tdiv c.CallCount) ++ " ns\n"
   else "") ++
  "\n"

/-- Concatenation of the per-function entries, in id order. -/
def entriesString (fmt : Int → String) : List (String × FunctionCounters) → String
  | [] => ""
  | p :: ps => entryString fmt p.1 p.2 ++ entriesString fmt ps

/-- The (name, counter) pairs the GetResultsAsString loop visits: ids 0..count-1. -/
def entries (reg : RegistryImpl) : List (String × FunctionCounters) :=
  (reg.Names.take (GetFunctionCount reg).toNat).zip
    (reg.Counters.take (GetFunctionCount reg).toNat)

/-- Embeds PerformanceCounters::GetResultsAsString (PerformanceCounters.cpp:120-146). -/
def GetResultsAsString (fmt : Int → String) (reg : RegistryImpl) : String :=
  "\n=== Function Timing Results ===\n\n" ++ entriesString fmt (entries reg)

/-- Embeds PerformanceCounters::GetResults (PerformanceCounters.cpp:149-166).
The caller's buffer is `none` for nullptr, otherwise `some` of its bytes
(as characters); memcpy writes result.size()+1 bytes (the string and its
NUL terminator), leaving the buffer's tail unchanged.  Returns the int
result and the buffer after the call. -/
def GetResults (fmt : Int → String) (reg : RegistryImpl)
    (buffer : Option (List Char)) (bufferSize : Int) :
    Int × Option (List Char) :=
  let result := GetResultsAsString fmt reg
  let requiredSize : Int := (result.length : Int) + 1
  match buffer with
  | none => (requiredSize, none)
  | some b =>
    if bufferSize = 0 then (requiredSize, some b)
    else if bufferSize < requiredSize then (-1, some b)
    else ((result.length : Int),
      some (result.data ++ [Char.ofNat 0] ++ b.drop (result.data.length + 1)))

/-- The consistency of FunctionRegistry::Impl's parallel containers, as
RegisterFunction maintains it from the empty registry: NameToId pairs each
name with its position, Count publishes the common size, names are unique. -/
def enumPairsFrom (i : Int) : List String → List (String × Int)
  | [] => []
  | n :: rest => (n, i) :: enumPairsFrom (i + 1) rest

/-- Registry well-formedness: the invariant RegisterFunction preserves. -/
def Wf (reg : RegistryImpl) : Prop :=
  reg.NameToId = enumPairsFrom 0 reg.Names ∧
  reg.Count = (reg.Names.length : Int) ∧
  reg.Counters.length = reg.Names.length ∧
  reg.Names.Nodup

/-- A sequence of RegisterFunction calls (as issued by ScopedTimer call sites). -/
def registerAll (reg : RegistryImpl) : List String → RegistryImpl
  | [] => reg
  | n :: ns => registerAll (RegisterFunction reg n).2 ns

/-- The distinct names of a list in first-occurrence order, skipping those
already in `seen`. -/
def distinctsAux (seen : List String) : List String → List String
  | [] => []
  | n :: rest =>
    if n ∈ seen then distinctsAux seen rest
    else n :: distinctsAux (n :: seen) rest

/-- The distinct names of a list in first-occurrence order. -/
def distincts (ns : List String) : List String := distinctsAux [] ns

/-- An observable registry event: a thread's accumulator flush, a global
counter reset, or a registration. -/
inductive Ev where
  | flushEv (acc : ThreadAccumulator)
  | resetEv
  | registerEv (name : String)
deriving DecidableEq

/-- The registry after one event. -/
def stepEv (reg : RegistryImpl) : Ev → RegistryImpl
  | .flushEv a => (Flush reg a).1
  | .resetEv => ResetAllCounters reg
  | .registerEv n => (RegisterFunction reg n).2

/-- The registry after a sequence of events. -/
def runTrace (reg : RegistryImpl) : List Ev → RegistryImpl
  | [] => reg
  | ev :: evs => runTrace (stepEv reg ev) evs

/-- The elapsed-nanoseconds delta a flush of accumulator `a` publishes into
global counter `i` (0 unless the loop reaches slot i and then exactly the
slot's value, which is 0 for an empty slot). -/
def deltaElapsed (i : Nat) (reg : RegistryImpl) (a : ThreadAccumulator) : Int :=
  if i < reg.Count.toNat ∧ i < a.Counters.length then
    (a.Counters.getD i ⟨0, 0⟩).Elapsed
  else 0

/-- The call-count delta a flush of accumulator `a` publishes into counter `i`. -/
def deltaCalls (i : Nat) (reg : RegistryImpl) (a : ThreadAccumulator) : Int :=
  if i < reg.Count.toNat ∧ i < a.Counters.length then
    (a.Counters.getD i ⟨0, 0⟩).Calls
  else 0

/-- Running sum of elapsed-nanoseconds deltas flushed into counter `i` since
the last reset, starting from `s`, over an event sequence. -/
def elapsedSince (i : Nat) : RegistryImpl → Int → List Ev → Int
  | _, s, [] => s
  | reg, s, ev :: evs =>
    elapsedSince i (stepEv reg ev)
      (match ev with
        | .flushEv a => s + deltaElapsed i reg a
        | .resetEv => 0
        | .registerEv _ => s) evs

/-- Running sum of call-count deltas flushed into counter `i` since the last
reset, starting from `s`, over an event sequence. -/
def callsSince (i : Nat) : RegistryImpl → Int → List Ev → Int
  | _, s, [] => s
  | reg, s, ev :: evs =>
    callsSince i (stepEv reg ev)
      (match ev with
        | .flushEv a => s + deltaCalls i reg a
        | .resetEv => 0
        | .registerEv _ => s) evs

/-- The registry holding exactly the single registered name "F" with a
zeroed counter — the value RegisterFunction produces from the empty
registry. -/
def regF : RegistryImpl :=
  { NameToId := [("F", 0)], Names := ["F"], Counters := [⟨0, 0⟩], Count := 1,
    Accumulators := [], Destroyed := false }

/-- The condition under which the Flush loop publishes and clears slot i. -/
def flushHits (n : Nat) (gs : List FunctionCounters) (ls : List LocalCounters)
    (i : Nat) : Prop :=
  i < n ∧ i < gs.length ∧ i < ls.length ∧
    ((ls.getD i ⟨0, 0⟩).Elapsed ≠ 0 ∨ (ls.getD i ⟨0, 0⟩).Calls ≠ 0)

instance (n gs ls i) : Decidable (flushHits n gs ls i) := by
  unfold flushHits; infer_instance

/-- A registry with one function "g" whose counter holds 3 ns over 2 calls:
the report's truncated average (1 ns) differs from the exact average (1.5). -/
def regAvgDemo : RegistryImpl :=
  { NameToId := [("g", 0)], Names := ["g"], Counters := [⟨3, 2⟩], Count := 1,
    Accumulators := [], Destroyed := false }

/-
Helper lemmas.
-/

lemma two_pow_31 : (2 : Int) ^ 31 = 2147483648 := by norm_num

lemma two_pow_32 : (2 : Int) ^ 32 = 4294967296 := by norm_num

lemma two_pow_63 : (2 : Int) ^ 63 = 9223372036854775808 := by norm_num

lemma two_pow_64 : (2 : Int) ^ 64 = 18446744073709551616 := by norm_num

lemma wrap64_eq_of_range (x : Int) (h1 : -(2 ^ 63) ≤ x) (h2 : x < 2 ^ 63) :
    wrap64 x = x := by
  unfold wrap64
  rw [two_pow_63, two_pow_64] at *
  omega

lemma wrap32_eq_of_range (x : Int) (h1 : -(2 ^ 31) ≤ x) (h2 : x < 2 ^ 31) :
    wrap32 x = x := by
  unfold wrap32
  rw [two_pow_31, two_pow_32] at *
  omega

lemma wrap64_bounds (x : Int) : -(2 ^ 63) ≤ wrap64 x ∧ wrap64 x < 2 ^ 63 := by
  unfold wrap64
  rw [two_pow_63, two_pow_64]
  omega

lemma wrap32_bounds (x : Int) : -(2 ^ 31) ≤ wrap32 x ∧ wrap32 x < 2 ^ 31 := by
  unfold wrap32
  rw [two_pow_31, two_pow_32]
  omega

lemma wrap64_emod (x : Int) : wrap64 x % 2 ^ 64 = x % 2 ^ 64 := by
  unfold wrap64
  rw [two_pow_63, two_pow_64]
  omega

lemma wrap32_emod (x : Int) : wrap32 x % 2 ^ 32 = x % 2 ^ 32 := by
  unfold wrap32
  rw [two_pow_31, two_pow_32]
  omega

lemma wrap64_add_left (a b : Int) : wrap64 (wrap64 a + b) = wrap64 (a + b) := by
  unfold wrap64
  rw [two_pow_63, two_pow_64]
  omega

lemma wrap32_add_left (a b : Int) : wrap32 (wrap32 a + b) = wrap32 (a + b) := by
  unfold wrap32
  rw [two_pow_31, two_pow_32]
  omega

lemma wrap64_zero : wrap64 0 = 0 := by
  rw [wrap64_eq_of_range] <;> norm_num

lemma wrap32_zero : wrap32 0 = 0 := by
  rw [wrap32_eq_of_range] <;> norm_num

lemma getD_of_len_le {α : Type} (l : List α) (i : Nat) (d : α)
    (h : l.length ≤ i) : l.getD i d = d := by
  simp [List.getD_eq_getElem?_getD, List.getElem?_eq_none h]

lemma lookupName_append (m m2 : List (String × Int)) (name : String)
    (h : lookupName m name = none) :
    lookupName (m ++ m2) name = lookupName m2 name := by
  induction m with
  | nil => rfl
  | cons p rest ih =>
    by_cases hk : p.1 = name
    · simp [lookupName, hk] at h
    · simp only [lookupName, hk, if_neg] at h ⊢
      exact ih h

lemma lookupName_cons (k : String) (v : Int) (m : List (String × Int))
    (name : String) :
    lookupName ((k, v) :: m) name =
      if k = name then some v else lookupName m name := rfl

/-- Registering a fresh name makes it findable at its new id. -/
lemma lookupName_append_self (m : List (String × Int)) (name : String) (v : Int)
    (h : lookupName m name = none) :
    lookupName (m ++ [(name, v)]) name = some v := by
  rw [lookupName_append m _ name h]
  simp [lookupName]

/-- C2: RegisterFunction is idempotent: a second call with the same name
returns the same id and leaves the registry unchanged, and FindFunction
after a registration returns the id the registration returned. -/
theorem registerFunction_idempotent (reg : RegistryImpl) (name : String) :
    (RegisterFunction (RegisterFunction reg name).2 name).1 =
      (RegisterFunction reg name).1 ∧
    (RegisterFunction (RegisterFunction reg name).2 name).2 =
      (RegisterFunction reg name).2 ∧
    FindFunction (RegisterFunction reg name).2 name =
      (RegisterFunction reg name).1 := by
  cases h : lookupName reg.NameToId name with
  | some id =>
    simp [RegisterFunction, FindFunction, h]
  | none =>
    have h2 : lookupName
        (reg.NameToId ++ [(name, (reg.Names.length : Int))]) name =
        some (reg.Names.length : Int) :=
      lookupName_append_self _ _ _ h
    simp [RegisterFunction, FindFunction, h, h2]

lemma flushAux_fst_length (n : Nat) :
    ∀ gs ls, (flushAux n gs ls).1.length = gs.length := by
  induction n with
  | zero => intro gs ls; rfl
  | succ n ih =>
    intro gs ls
    cases ls with
    | nil => cases gs <;> rfl
    | cons l ls =>
      cases gs with
      | nil => rfl
      | cons g gs =>
        by_cases h : l.Elapsed ≠ 0 ∨ l.Calls ≠ 0
        · simp [flushAux, h, ih]
        · simp [flushAux, h, ih]

lemma flushAux_snd_length (n : Nat) :
    ∀ gs ls, (flushAux n gs ls).2.length = ls.length := by
  induction n with
  | zero => intro gs ls; rfl
  | succ n ih =>
    intro gs ls
    cases ls with
    | nil =>
      cases gs with
      | nil => rfl
      | cons g gs => rfl
    | cons l ls =>
      cases gs with
      | nil => rfl
      | cons g gs =>
        by_cases h : l.Elapsed ≠ 0 ∨ l.Calls ≠ 0
        · simp [flushAux, h, ih]
        · simp [flushAux, h, ih]

lemma flushAux_fst_getD (n : Nat) :
    ∀ gs ls i, (flushAux n gs ls).1.getD i ⟨0, 0⟩ =
      if flushHits n gs ls i then
        ⟨wrap64 ((gs.getD i ⟨0, 0⟩).TotalNanoseconds + (ls.getD i ⟨0, 0⟩).Elapsed),
          wrap32 ((gs.getD i ⟨0, 0⟩).CallCount + (ls.getD i ⟨0, 0⟩).Calls)⟩
      else gs.getD i ⟨0, 0⟩ := by
  induction n with
  | zero =>
    intro gs ls i
    simp [flushAux, flushHits]
  | succ n ih =>
    intro gs ls i
    cases ls with
    | nil => simp [flushAux, flushHits]
    | cons l ls =>
      cases gs with
      | nil => simp [flushAux, flushHits]
      | cons g gs =>
        cases i with
        | zero =>
          by_cases h : l.Elapsed ≠ 0 ∨ l.Calls ≠ 0
          · simp [flushAux, h, flushHits]
          · simp [flushAux, h, flushHits]
        | succ i =>
          by_cases h : l.Elapsed ≠ 0 ∨ l.Calls ≠ 0
          · simp only [flushAux, if_pos h, List.getD_cons_succ]
            rw [ih gs ls i]
            simp [flushHits, Nat.succ_lt_succ_iff]
          · simp only [flushAux, if_neg h, List.getD_cons_succ]
            rw [ih gs ls i]
            simp [flushHits, Nat.succ_lt_succ_iff]

lemma flushAux_snd_getD (n : Nat) :
    ∀ gs ls i, (flushAux n gs ls).2.getD i ⟨0, 0⟩ =
      if flushHits n gs ls i then ⟨0, 0⟩ else ls.getD i ⟨0, 0⟩ := by
  induction n with
  | zero =>
    intro gs ls i
    simp [flushAux, flushHits]
  | succ n ih =>
    intro gs ls i
    cases ls with
    | nil => simp [flushAux, flushHits]
    | cons l ls =>
      cases gs with
      | nil =>
        simp [flushAux, flushHits]
      | cons g gs =>
        cases i with
        | zero =>
          by_cases h : l.Elapsed ≠ 0 ∨ l.Calls ≠ 0
          · simp [flushAux, h, flushHits]
          · simp [flushAux, h, flushHits]
        | succ i =>
          by_cases h : l.Elapsed ≠ 0 ∨ l.Calls ≠ 0
          · simp only [flushAux, if_pos h, List.getD_cons_succ]
            rw [ih gs ls i]
            simp [flushHits, Nat.succ_lt_succ_iff]
          · simp only [flushAux, if_neg h, List.getD_cons_succ]
            rw [ih gs ls i]
            simp [flushHits, Nat.succ_lt_succ_iff]

lemma resetAux_length (n : Nat) : ∀ gs, (resetAux n gs).length = gs.length := by
  induction n with
  | zero => intro gs; rfl
  | succ n ih =>
    intro gs
    cases gs with
    | nil => rfl
    | cons g gs => simp [resetAux, ih]

lemma resetAux_getD (n : Nat) :
    ∀ gs i, (resetAux n gs).getD i ⟨0, 0⟩ =
      if i < n ∧ i < gs.length then ⟨0, 0⟩ else gs.getD i ⟨0, 0⟩ := by
  induction n with
  | zero => intro gs i; simp [resetAux]
  | succ n ih =>
    intro gs i
    cases gs with
    | nil => simp [resetAux]
    | cons g gs =>
      cases i with
      | zero => simp [resetAux]
      | succ i =>
        simp only [resetAux, List.getD_cons_succ]
        rw [ih gs i]
        simp [Nat.succ_lt_succ_iff]

/-- C9: ResetAllCounters zeroes every global counter — afterwards every call
count reads 0 and every total time reads 0.0 (for previously registered ids
via the reset store, for invalid ids via the sentinel) — while the names,
the name→id map, the published count, and every id lookup are unchanged. -/
theorem resetAllCounters_zeroes_and_preserves_ids
    (reg : RegistryImpl) (id : Int) (name : String) :
    GetFunctionCallCount (ResetAllCounters reg) id = 0 ∧
    GetFunctionTotalTime (ResetAllCounters reg) id = 0 ∧
    (ResetAllCounters reg).Names = reg.Names ∧
    (ResetAllCounters reg).NameToId = reg.NameToId ∧
    (ResetAllCounters reg).Count = reg.Count ∧
    GetFunctionId (ResetAllCounters reg) name = GetFunctionId reg name := by
  have hcounter : ∀ i : Nat,
      ((ResetAllCounters reg).Counters.getD i ⟨0, 0⟩ = ⟨0, 0⟩) ∨
      reg.Counters.length ≤ i ∨ reg.Count.toNat ≤ i := by
    intro i
    unfold ResetAllCounters
    rw [resetAux_getD]
    by_cases h2 : i < reg.Count.toNat ∧ i < reg.Counters.length
    · simp [h2]
    · right
      omega
  have hlen : (ResetAllCounters reg).Counters.length = reg.Counters.length :=
    resetAux_length _ _
  refine ⟨?_, ?_, rfl, rfl, rfl, rfl⟩
  · unfold GetFunctionCallCount GetFunctionCount
    by_cases h : id < 0 ∨ (ResetAllCounters reg).Count ≤ id
    · simp [h]
    · rw [if_neg h]
      have hc : (ResetAllCounters reg).Count = reg.Count := rfl
      rcases hcounter id.toNat with hz | hz | hz
      · rw [hz]
      · rw [getD_of_len_le _ _ _ (by rw [hlen]; exact hz)]
      · rw [hc] at h
        omega
  · unfold GetFunctionTotalTime GetFunctionCount
    by_cases h : id < 0 ∨ (ResetAllCounters reg).Count ≤ id
    · simp [h]
    · rw [if_neg h]
      have hc : (ResetAllCounters reg).Count = reg.Count := rfl
      rcases hcounter id.toNat with hz | hz | hz
      · rw [hz]
        norm_num
      · rw [getD_of_len_le _ _ _ (by rw [hlen]; exact hz)]
        norm_num
      · rw [hc] at h
        omega

/-- C8: every lookup with an invalid input degrades to a sentinel:
GetFunctionName gives "" for an out-of-range id; GetFunctionId gives -1 for
an unknown name; call count / total time / average time give 0 for an
invalid id or unknown name; GetFunctionAverageTime gives 0 when the stored
call count is zero. -/
theorem lookups_degrade_to_sentinels
    (reg : RegistryImpl) (id : Int) (name : String) :
    ((id < 0 ∨ GetFunctionCount reg ≤ id) →
      GetFunctionName reg id = "" ∧
      GetFunctionCallCount reg id = 0 ∧
      GetFunctionTotalTime reg id = 0 ∧
      GetFunctionAverageTime reg id = 0) ∧
    (lookupName reg.NameToId name = none →
      GetFunctionId reg name = -1 ∧
      GetFunctionCallCountByName reg name = 0 ∧
      GetFunctionTotalTimeByName reg name = 0 ∧
      GetFunctionAverageTimeByName reg name = 0) ∧
    ((reg.Counters.getD id.toNat ⟨0, 0⟩).CallCount = 0 →
      GetFunctionAverageTime reg id = 0) := by
  refine ⟨?_, ?_, ?_⟩
  · intro h
    refine ⟨?_, ?_, ?_, ?_⟩ <;>
      simp [GetFunctionName, GetFunctionCallCount, GetFunctionTotalTime,
        GetFunctionAverageTime, h]
  · intro h
    have hid : GetFunctionId reg name = -1 := by
      simp [GetFunctionId, FindFunction, h]
    refine ⟨hid, ?_, ?_, ?_⟩ <;>
      simp [GetFunctionCallCountByName, GetFunctionTotalTimeByName,
        GetFunctionAverageTimeByName, hid, GetFunctionCallCount,
        GetFunctionTotalTime, GetFunctionAverageTime]
  · intro h
    by_cases hv : id < 0 ∨ GetFunctionCount reg ≤ id
    · unfold GetFunctionAverageTime
      simp [hv]
    · have hbody : GetFunctionAverageTime reg id =
          if (reg.Counters.getD id.toNat ⟨0, 0⟩).CallCount = 0 then 0
          else ((reg.Counters.getD id.toNat ⟨0, 0⟩).TotalNanoseconds : ℚ) /
            ((reg.Counters.getD id.toNat ⟨0, 0⟩).CallCount : ℚ) := by
        unfold GetFunctionAverageTime
        rw [if_neg hv]
      rw [hbody, if_pos h]

/-- Witness for the sentinel theorem at a concrete one-entry registry:
id 5 is out of range, "g" is unknown, and id 0 has a zero call count. -/
theorem lookups_degrade_to_sentinels_witness :
    GetFunctionName
      ⟨[("f", 0)], ["f"], [⟨7, 0⟩], 1, [], false⟩ 5 = "" ∧
    GetFunctionCallCount
      ⟨[("f", 0)], ["f"], [⟨7, 0⟩], 1, [], false⟩ 5 = 0 ∧
    GetFunctionTotalTime
      ⟨[("f", 0)], ["f"], [⟨7, 0⟩], 1, [], false⟩ 5 = 0 ∧
    GetFunctionAverageTime
      ⟨[("f", 0)], ["f"], [⟨7, 0⟩], 1, [], false⟩ 5 = 0 ∧
    GetFunctionId
      ⟨[("f", 0)], ["f"], [⟨7, 0⟩], 1, [], false⟩ "g" = -1 ∧
    GetFunctionCallCountByName
      ⟨[("f", 0)], ["f"], [⟨7, 0⟩], 1, [], false⟩ "g" = 0 ∧
    GetFunctionTotalTimeByName
      ⟨[("f", 0)], ["f"], [⟨7, 0⟩], 1, [], false⟩ "g" = 0 ∧
    GetFunctionAverageTimeByName
      ⟨[("f", 0)], ["f"], [⟨7, 0⟩], 1, [], false⟩ "g" = 0 ∧
    GetFunctionAverageTime
      ⟨[("f", 0)], ["f"], [⟨7, 0⟩], 1, [], false⟩ 0 = 0 := by
  have h5 := lookups_degrade_to_sentinels
    ⟨[("f", 0)], ["f"], [⟨7, 0⟩], 1, [], false⟩ 5 "g"
  have h0 := lookups_degrade_to_sentinels
    ⟨[("f", 0)], ["f"], [⟨7, 0⟩], 1, [], false⟩ 0 "g"
  obtain ⟨hrange, hname, -⟩ := h5
  obtain ⟨hn1, hn2, hn3, hn4⟩ := hrange (by decide)
  obtain ⟨hm1, hm2, hm3, hm4⟩ := hname (by decide)
  exact ⟨hn1, hn2, hn3, hn4, hm1, hm2, hm3, hm4, h0.2.2 (by decide)⟩

/-- C5 counterexample: GetResults called with a non-null zero-length buffer
and bufferSize 0 — which is at least one byte short of the 35 bytes required
on an empty registry — returns the required size 35, not the -1 the claim
demands for every too-small buffer. -/
theorem getResults_zero_size_not_minus_one :
    (GetResults (fun _ => "") emptyRegistry (some []) 0).1 = 35 ∧
    (0 : Int) ≤ 35 - 1 ∧
    (GetResults (fun _ => "") emptyRegistry (some []) 0).1 ≠ -1 := by
  decide

/-- C5 amended: a null buffer (any size) or a zero bufferSize returns the
exact byte count needed including the terminator; a non-null buffer with a
nonzero size less than that count returns -1 with the buffer unmodified; a
sufficient buffer returns the string's byte count, and the buffer holds the
GetResultsAsString text plus NUL terminator verbatim with its tail unchanged. -/
theorem getResults_buffer_protocol (fmt : Int → String) (reg : RegistryImpl)
    (b : List Char) (size : Int) :
    (GetResults fmt reg none size) =
      (((GetResultsAsString fmt reg).length : Int) + 1, none) ∧
    (GetResults fmt reg (some b) 0) =
      (((GetResultsAsString fmt reg).length : Int) + 1, some b) ∧
    (size ≠ 0 → size < ((GetResultsAsString fmt reg).length : Int) + 1 →
      GetResults fmt reg (some b) size = (-1, some b)) ∧
    (((GetResultsAsString fmt reg).length : Int) + 1 ≤ size →
      GetResults fmt reg (some b) size =
        (((GetResultsAsString fmt reg).length : Int),
          some ((GetResultsAsString fmt reg).data ++ [Char.ofNat 0] ++
            b.drop ((GetResultsAsString fmt reg).data.length + 1)))) := by
  refine ⟨rfl, by simp [GetResults], ?_, ?_⟩
  · intro h1 h2
    simp [GetResults, h1, h2]
  · intro h
    have h1 : ¬(size = 0) := by omega
    have h2 : ¬(size < ((GetResultsAsString fmt reg).length : Int) + 1) := by omega
    simp [GetResults, h1, h2]

/-- Witness for the buffer protocol on the empty registry: bufferSize 10 is
short (result needs 35 bytes) and returns -1 untouched; bufferSize 40 is
sufficient and receives the text plus terminator. -/
theorem getResults_buffer_protocol_witness :
    GetResults (fun _ => "") emptyRegistry (some (List.replicate 40 'x')) 10 =
      (-1, some (List.replicate 40 'x')) ∧
    GetResults (fun _ => "") emptyRegistry (some (List.replicate 40 'x')) 40 =
      (((GetResultsAsString (fun _ => "") emptyRegistry).length : Int),
        some ((GetResultsAsString (fun _ => "") emptyRegistry).data ++
          [Char.ofNat 0] ++
          (List.replicate 40 'x').drop
            ((GetResultsAsString (fun _ => "") emptyRegistry).data.length + 1))) := by
  have h10 := getResults_buffer_protocol (fun _ => "") emptyRegistry
    (List.replicate 40 'x') 10
  have h40 := getResults_buffer_protocol (fun _ => "") emptyRegistry
    (List.replicate 40 'x') 40
  exact ⟨h10.2.2.1 (by decide) (by decide), h40.2.2.2 (by decide)⟩

/-- C6: the destructor runs its final Flush before consulting the Destroyed
flag, so with the torn-down flag already set and one pending local slot
{Elapsed=5, Calls=1} it still reads the registry's count and fetch-adds
into the registry's counter (the counter changes from {0,0} to {5,1});
only the deregistration is skipped (the token list stays [7]).  This
contradicts the claim that the flag is checked before any registry access
and that the flush's counter writes are skipped. -/
theorem accumulatorDtor_flushes_into_dead_registry :
    (⟨[("f", 0)], ["f"], [⟨0, 0⟩], 1, [7], true⟩ : RegistryImpl).Destroyed = true ∧
    (accumulatorDtor ⟨[("f", 0)], ["f"], [⟨0, 0⟩], 1, [7], true⟩ 7
      ⟨[⟨5, 1⟩]⟩).Counters = [⟨5, 1⟩] ∧
    (accumulatorDtor ⟨[("f", 0)], ["f"], [⟨0, 0⟩], 1, [7], true⟩ 7
      ⟨[⟨5, 1⟩]⟩).Counters ≠
      (⟨[("f", 0)], ["f"], [⟨0, 0⟩], 1, [7], true⟩ : RegistryImpl).Counters ∧
    (accumulatorDtor ⟨[("f", 0)], ["f"], [⟨0, 0⟩], 1, [7], true⟩ 7
      ⟨[⟨5, 1⟩]⟩).Accumulators = [7] := by
  decide

/-- C7 counterexample: CallCount is a signed 32-bit int, not an unsigned
64-bit integer.  Flushing one more call into a counter that already holds
2147483647 calls wraps it to -2147483648 — a negative value an unsigned
counter cannot hold, and not the 2147483648 that unsigned 64-bit
arithmetic would produce. -/
theorem callCount_wraps_to_negative_at_int32_max :
    ((Flush ⟨[("f", 0)], ["f"], [⟨0, 2147483647⟩], 1, [], false⟩
        ⟨[⟨0, 1⟩]⟩).1.Counters.getD 0 ⟨0, 0⟩).CallCount = -2147483648 ∧
    ((Flush ⟨[("f", 0)], ["f"], [⟨0, 2147483647⟩], 1, [], false⟩
        ⟨[⟨0, 1⟩]⟩).1.Counters.getD 0 ⟨0, 0⟩).CallCount < 0 ∧
    ((Flush ⟨[("f", 0)], ["f"], [⟨0, 2147483647⟩], 1, [], false⟩
        ⟨[⟨0, 1⟩]⟩).1.Counters.getD 0 ⟨0, 0⟩).CallCount ≠ 2147483647 + 1 := by
  decide

/-- C7 amended: each global counter pair is a signed 64-bit atomic
TotalNanoseconds and a signed 32-bit atomic int CallCount; the counter
array is append-only (registration leaves the existing counters as a
verbatim prefix, so nothing is removed or reordered), flush and reset
never change its length, and counter updates stay in the signed ranges,
congruent mod 2^64 / 2^32 to the unwrapped arithmetic. -/
theorem counters_signed_widths_append_only :
    (∀ (reg : RegistryImpl) (name : String),
      ∃ tail : List FunctionCounters,
        (RegisterFunction reg name).2.Counters = reg.Counters ++ tail) ∧
    (∀ (reg : RegistryImpl) (acc : ThreadAccumulator),
      (Flush reg acc).1.Counters.length = reg.Counters.length) ∧
    (∀ reg : RegistryImpl,
      (ResetAllCounters reg).Counters.length = reg.Counters.length) ∧
    (∀ x : Int,
      -(2 ^ 63) ≤ wrap64 x ∧ wrap64 x < 2 ^ 63 ∧ wrap64 x % 2 ^ 64 = x % 2 ^ 64) ∧
    (∀ x : Int,
      -(2 ^ 31) ≤ wrap32 x ∧ wrap32 x < 2 ^ 31 ∧ wrap32 x % 2 ^ 32 = x % 2 ^ 32) := by
  refine ⟨?_, ?_, ?_, ?_, ?_⟩
  · intro reg name
    cases h : lookupName reg.NameToId name with
    | some id =>
      exact ⟨[], by simp [RegisterFunction, h]⟩
    | none =>
      exact ⟨[⟨0, 0⟩], by simp [RegisterFunction, h]⟩
  · intro reg acc
    exact flushAux_fst_length _ _ _
  · intro reg
    exact resetAux_length _ _
  · intro x
    exact ⟨(wrap64_bounds x).1, (wrap64_bounds x).2, wrap64_emod x⟩
  · intro x
    exact ⟨(wrap32_bounds x).1, (wrap32_bounds x).2, wrap32_emod x⟩

lemma enumPairsFrom_append (xs : List String) :
    ∀ (i : Int) (ys : List String),
      enumPairsFrom i (xs ++ ys) =
        enumPairsFrom i xs ++ enumPairsFrom (i + xs.length) ys := by
  induction xs with
  | nil =>
    intro i ys
    simp [enumPairsFrom]
  | cons x xs ih =>
    intro i ys
    calc enumPairsFrom i ((x :: xs) ++ ys)
        = (x, i) :: enumPairsFrom (i + 1) (xs ++ ys) := rfl
      _ = (x, i) :: (enumPairsFrom (i + 1) xs ++
            enumPairsFrom (i + 1 + (xs.length : Int)) ys) := by rw [ih]
      _ = enumPairsFrom i (x :: xs) ++
            enumPairsFrom (i + (((x :: xs).length : Nat) : Int)) ys := by
            rw [show i + 1 + (xs.length : Int) =
              i + (((x :: xs).length : Nat) : Int) by
                push_cast [List.length_cons]; ring]
            rfl

lemma lookup_enumPairsFrom_eq_none_iff (ns : List String) :
    ∀ (i : Int) (name : String),
      lookupName (enumPairsFrom i ns) name = none ↔ name ∉ ns := by
  induction ns with
  | nil => simp [enumPairsFrom, lookupName]
  | cons n rest ih =>
    intro i name
    by_cases h : n = name
    · simp [enumPairsFrom, lookupName_cons, h]
    · simp [enumPairsFrom, lookupName_cons, h, ih, List.mem_cons, Ne.symm h]

lemma lookup_enumPairsFrom_get (ns : List String) :
    ns.Nodup → ∀ (i : Int) (k : Nat) (hk : k < ns.length),
      lookupName (enumPairsFrom i ns) (ns.get ⟨k, hk⟩) = some (i + k) := by
  induction ns with
  | nil =>
    intro _ i k hk
    simp at hk
  | cons n rest ih =>
    intro hnd i k hk
    obtain ⟨hmem, hnd2⟩ := List.nodup_cons.mp hnd
    cases k with
    | zero => simp [enumPairsFrom, lookupName_cons]
    | succ k =>
      have hk2 : k < rest.length := by simpa using hk
      have hne : n ≠ rest.get ⟨k, hk2⟩ := by
        intro he
        exact hmem (he ▸ List.get_mem rest k hk2)
      have hget : (n :: rest).get ⟨k + 1, hk⟩ = rest.get ⟨k, hk2⟩ := rfl
      rw [hget, enumPairsFrom, lookupName_cons, if_neg hne, ih hnd2 (i + 1) k hk2]
      congr 1
      push_cast
      ring

lemma Wf_empty : Wf emptyRegistry := ⟨rfl, rfl, rfl, List.nodup_nil⟩

lemma lookup_wf_none_iff (reg : RegistryImpl) (h : Wf reg) (name : String) :
    lookupName reg.NameToId name = none ↔ name ∉ reg.Names := by
  rw [h.1]
  exact lookup_enumPairsFrom_eq_none_iff _ 0 name

lemma register_found (reg : RegistryImpl) (name : String) (id : Int)
    (hl : lookupName reg.NameToId name = some id) :
    RegisterFunction reg name = (id, reg) := by
  simp [RegisterFunction, hl]

lemma register_fresh (reg : RegistryImpl) (name : String)
    (hl : lookupName reg.NameToId name = none) :
    RegisterFunction reg name =
      ((reg.Names.length : Int),
        { reg with
            Names := reg.Names ++ [name],
            NameToId := reg.NameToId ++ [(name, (reg.Names.length : Int))],
            Counters := reg.Counters ++ [⟨0, 0⟩],
            Count := (reg.Names.length : Int) + 1 }) := by
  simp [RegisterFunction, hl]

lemma Wf_register (reg : RegistryImpl) (name : String) (h : Wf reg) :
    Wf (RegisterFunction reg name).2 := by
  cases hl : lookupName reg.NameToId name with
  | some id =>
    rw [register_found reg name id hl]
    exact h
  | none =>
    have hnm : name ∉ reg.Names := (lookup_wf_none_iff reg h name).mp hl
    obtain ⟨h1, h2, h3, h4⟩ := h
    rw [register_fresh reg name hl]
    refine ⟨?_, ?_, ?_, ?_⟩
    · show reg.NameToId ++ [(name, (reg.Names.length : Int))] =
        enumPairsFrom 0 (reg.Names ++ [name])
      rw [enumPairsFrom_append, ← h1]
      simp [enumPairsFrom]
    · show (reg.Names.length : Int) + 1 = ((reg.Names ++ [name]).length : Int)
      simp
    · show (reg.Counters ++ [(⟨0, 0⟩ : FunctionCounters)]).length =
        (reg.Names ++ [name]).length
      simp [h3]
    · show (reg.Names ++ [name]).Nodup
      simp [List.nodup_append, h4, hnm]

lemma distinctsAux_congr (ns : List String) :
    ∀ s1 s2 : List String, (∀ x, x ∈ s1 ↔ x ∈ s2) →
      distinctsAux s1 ns = distinctsAux s2 ns := by
  induction ns with
  | nil => intro _ _ _; rfl
  | cons n rest ih =>
    intro s1 s2 hmem
    by_cases h : n ∈ s1
    · simp [distinctsAux, h, (hmem n).mp h, ih _ _ hmem]
    · have h2 : n ∉ s2 := fun hh => h ((hmem n).mpr hh)
      simp only [distinctsAux, if_neg h, if_neg h2]
      rw [ih (n :: s1) (n :: s2) (fun x => by simp [List.mem_cons, hmem x])]

lemma registerAll_names (ns : List String) :
    ∀ reg : RegistryImpl, Wf reg →
      (registerAll reg ns).Names = reg.Names ++ distinctsAux reg.Names ns ∧
      Wf (registerAll reg ns) := by
  induction ns with
  | nil =>
    intro reg h
    exact ⟨by simp [registerAll, distinctsAux], h⟩
  | cons n rest ih =>
    intro reg h
    cases hl : lookupName reg.NameToId n with
    | some id =>
      have hm : n ∈ reg.Names := by
        by_contra hc
        rw [(lookup_wf_none_iff reg h n).mpr hc] at hl
        cases hl
      have hstep : registerAll reg (n :: rest) = registerAll reg rest := by
        simp [registerAll, register_found reg n id hl]
      rw [hstep]
      obtain ⟨ha, hb⟩ := ih reg h
      exact ⟨by rw [ha]; simp [distinctsAux, hm], hb⟩
    | none =>
      have hm : n ∉ reg.Names := (lookup_wf_none_iff reg h n).mp hl
      have hwf2 : Wf (RegisterFunction reg n).2 := Wf_register reg n h
      have hstep : registerAll reg (n :: rest) =
          registerAll (RegisterFunction reg n).2 rest := rfl
      have hnames2 : (RegisterFunction reg n).2.Names = reg.Names ++ [n] := by
        rw [register_fresh reg n hl]
      obtain ⟨ha, hb⟩ := ih (RegisterFunction reg n).2 hwf2
      rw [hstep]
      refine ⟨?_, hb⟩
      rw [ha, hnames2]
      rw [distinctsAux_congr rest (reg.Names ++ [n]) (n :: reg.Names)
        (fun x => by simp [List.mem_cons, List.mem_append, or_comm])]
      simp [distinctsAux, hm, List.append_assoc]

/-- C3: from the empty registry, RegisterFunction assigns ids densely in
first-occurrence order starting at 0: the registered names are exactly the
distinct names in order, the published count equals their number, the k-th
distinct name maps to id k, and later registrations only append — no id is
reused or removed. -/
theorem ids_dense_in_registration_order (ns : List String) :
    (registerAll emptyRegistry ns).Names = distincts ns ∧
    (registerAll emptyRegistry ns).Count = ((distincts ns).length : Int) ∧
    (∀ (k : Nat) (hk : k < (distincts ns).length),
      (RegisterFunction (registerAll emptyRegistry ns)
        ((distincts ns).get ⟨k, hk⟩)).1 = k) ∧
    (∀ ms : List String, ∃ tail,
      (registerAll (registerAll emptyRegistry ns) ms).Names =
        (registerAll emptyRegistry ns).Names ++ tail) := by
  obtain ⟨hn, hwf⟩ := registerAll_names ns emptyRegistry Wf_empty
  have hnames : (registerAll emptyRegistry ns).Names = distincts ns := by
    rw [hn]
    rfl
  refine ⟨hnames, ?_, ?_, ?_⟩
  · rw [hwf.2.1, hnames]
  · intro k hk
    have hk2 : k < (registerAll emptyRegistry ns).Names.length := by
      rw [hnames]
      exact hk
    have hget : (distincts ns).get ⟨k, hk⟩ =
        (registerAll emptyRegistry ns).Names.get ⟨k, hk2⟩ := by
      apply List.get_of_eq hnames.symm
    have hl : lookupName (registerAll emptyRegistry ns).NameToId
        ((registerAll emptyRegistry ns).Names.get ⟨k, hk2⟩) =
        some ((0 : Int) + (k : Int)) := by
      rw [hwf.1]
      exact lookup_enumPairsFrom_get _ hwf.2.2.2 0 k hk2
    rw [hget, register_found _ _ _ hl]
    simp
  · intro ms
    obtain ⟨ha, -⟩ := registerAll_names ms (registerAll emptyRegistry ns) hwf
    exact ⟨_, ha⟩

/-- Witness for dense id assignment: registering ["a","b","a","c"] yields
distinct names ["a","b","c"] and the third distinct name "c" has id 2. -/
theorem ids_dense_in_registration_order_witness :
    (RegisterFunction (registerAll emptyRegistry ["a", "b", "a", "c"]) "c").1 = 2 := by
  have h := (ids_dense_in_registration_order ["a", "b", "a", "c"]).2.2.1 2 (by decide)
  simpa using h

lemma Flush_counterAt (reg : RegistryImpl) (acc : ThreadAccumulator) (i : Nat) :
    (Flush reg acc).1.Counters.getD i ⟨0, 0⟩ =
      if flushHits reg.Count.toNat reg.Counters acc.Counters i then
        ⟨wrap64 ((reg.Counters.getD i ⟨0, 0⟩).TotalNanoseconds +
            (acc.Counters.getD i ⟨0, 0⟩).Elapsed),
          wrap32 ((reg.Counters.getD i ⟨0, 0⟩).CallCount +
            (acc.Counters.getD i ⟨0, 0⟩).Calls)⟩
      else reg.Counters.getD i ⟨0, 0⟩ :=
  flushAux_fst_getD reg.Count.toNat reg.Counters acc.Counters i

lemma Flush_localAt (reg : RegistryImpl) (acc : ThreadAccumulator) (i : Nat) :
    (Flush reg acc).2.Counters.getD i ⟨0, 0⟩ =
      if flushHits reg.Count.toNat reg.Counters acc.Counters i then ⟨0, 0⟩
      else acc.Counters.getD i ⟨0, 0⟩ :=
  flushAux_snd_getD reg.Count.toNat reg.Counters acc.Counters i

lemma Wf_flush (reg : RegistryImpl) (a : ThreadAccumulator) (h : Wf reg) :
    Wf (Flush reg a).1 :=
  ⟨h.1, h.2.1, (flushAux_fst_length _ _ _).trans h.2.2.1, h.2.2.2⟩

lemma Wf_reset (reg : RegistryImpl) (h : Wf reg) : Wf (ResetAllCounters reg) :=
  ⟨h.1, h.2.1, (resetAux_length _ _).trans h.2.2.1, h.2.2.2⟩

lemma Wf_stepEv (reg : RegistryImpl) (ev : Ev) (h : Wf reg) : Wf (stepEv reg ev) := by
  cases ev with
  | flushEv a => exact Wf_flush reg a h
  | resetEv => exact Wf_reset reg h
  | registerEv n => exact Wf_register reg n h

lemma stepEv_count_mono (reg : RegistryImpl) (ev : Ev) (h : Wf reg) :
    reg.Count ≤ (stepEv reg ev).Count := by
  cases ev with
  | flushEv a => exact le_refl _
  | resetEv => exact le_refl _
  | registerEv n =>
    cases hl : lookupName reg.NameToId n with
    | some id =>
      rw [show stepEv reg (Ev.registerEv n) = (RegisterFunction reg n).2 from rfl,
        register_found reg n id hl]
    | none =>
      rw [show stepEv reg (Ev.registerEv n) = (RegisterFunction reg n).2 from rfl,
        register_fresh reg n hl]
      show reg.Count ≤ (reg.Names.length : Int) + 1
      rw [h.2.1]
      omega

/-- The central accounting invariant: a counter that currently holds the
wrapped running sums continues to do so through any sequence of flushes,
resets and registrations. -/
lemma runTrace_counterAt (i : Nat) :
    ∀ (evs : List Ev) (reg : RegistryImpl) (e c : Int),
      Wf reg → i < reg.Count.toNat →
      reg.Counters.getD i ⟨0, 0⟩ = ⟨wrap64 e, wrap32 c⟩ →
      (runTrace reg evs).Counters.getD i ⟨0, 0⟩ =
        ⟨wrap64 (elapsedSince i reg e evs), wrap32 (callsSince i reg c evs)⟩ := by
  intro evs
  induction evs with
  | nil =>
    intro reg e c _ _ hcnt
    exact hcnt
  | cons ev evs ih =>
    intro reg e c hwf hi hcnt
    have hwf2 := Wf_stepEv reg ev hwf
    have hi2 : i < (stepEv reg ev).Count.toNat := by
      have := stepEv_count_mono reg ev hwf
      omega
    have hgs : i < reg.Counters.length := by
      have h2 := hwf.2.1
      have h3 := hwf.2.2.1
      omega
    cases ev with
    | flushEv a =>
      apply ih (stepEv reg (Ev.flushEv a)) (e + deltaElapsed i reg a)
        (c + deltaCalls i reg a) hwf2 hi2
      show (Flush reg a).1.Counters.getD i ⟨0, 0⟩ = _
      rw [Flush_counterAt]
      have hT : (reg.Counters.getD i ⟨0, 0⟩).TotalNanoseconds = wrap64 e := by
        rw [hcnt]
      have hC : (reg.Counters.getD i ⟨0, 0⟩).CallCount = wrap32 c := by
        rw [hcnt]
      by_cases hh : flushHits reg.Count.toNat reg.Counters a.Counters i
      · rw [if_pos hh, hT, hC]
        have hdE : deltaElapsed i reg a = (a.Counters.getD i ⟨0, 0⟩).Elapsed := by
          unfold deltaElapsed
          rw [if_pos ⟨hh.1, hh.2.2.1⟩]
        have hdC : deltaCalls i reg a = (a.Counters.getD i ⟨0, 0⟩).Calls := by
          unfold deltaCalls
          rw [if_pos ⟨hh.1, hh.2.2.1⟩]
        rw [hdE, hdC, wrap64_add_left, wrap32_add_left]
      · rw [if_neg hh, hcnt]
        by_cases hl : i < a.Counters.length
        · have hz : ¬((a.Counters.getD i ⟨0, 0⟩).Elapsed ≠ 0 ∨
              (a.Counters.getD i ⟨0, 0⟩).Calls ≠ 0) :=
            fun hnz => hh ⟨hi, hgs, hl, hnz⟩
          push_neg at hz
          have hdE : deltaElapsed i reg a = 0 := by
            unfold deltaElapsed
            rw [if_pos ⟨hi, hl⟩]
            exact hz.1
          have hdC : deltaCalls i reg a = 0 := by
            unfold deltaCalls
            rw [if_pos ⟨hi, hl⟩]
            exact hz.2
          rw [hdE, hdC, add_zero, add_zero]
        · have hdE : deltaElapsed i reg a = 0 := by
            unfold deltaElapsed
            rw [if_neg (fun hc => hl hc.2)]
          have hdC : deltaCalls i reg a = 0 := by
            unfold deltaCalls
            rw [if_neg (fun hc => hl hc.2)]
          rw [hdE, hdC, add_zero, add_zero]
    | resetEv =>
      apply ih (stepEv reg Ev.resetEv) 0 0 hwf2 hi2
      show (ResetAllCounters reg).Counters.getD i ⟨0, 0⟩ = _
      unfold ResetAllCounters
      rw [resetAux_getD, if_pos ⟨hi, hgs⟩, wrap64_zero, wrap32_zero]
    | registerEv n =>
      apply ih (stepEv reg (Ev.registerEv n)) e c hwf2 hi2
      show (RegisterFunction reg n).2.Counters.getD i ⟨0, 0⟩ = _
      cases hl : lookupName reg.NameToId n with
      | some id =>
        rw [register_found reg n id hl]
        exact hcnt
      | none =>
        rw [register_fresh reg n hl]
        show (reg.Counters ++ [(⟨0, 0⟩ : FunctionCounters)]).getD i ⟨0, 0⟩ = _
        rw [List.getD_append _ _ _ _ hgs]
        exact hcnt

/-- C1 counterexample: the claim's exact-sum invariant fails once the
flushed call deltas overflow the signed 32-bit CallCount.  Two flushes of
2^30 calls each (deltas summing to 2^31) leave the global counter at
-2^31, not at the sum 2^31. -/
theorem flushed_sum_claim_fails_at_2_pow_31 :
    ((runTrace ⟨[("f", 0)], ["f"], [⟨0, 0⟩], 1, [], false⟩
        [Ev.flushEv ⟨[⟨0, 2 ^ 30⟩]⟩, Ev.flushEv ⟨[⟨0, 2 ^ 30⟩]⟩]).Counters.getD 0
        ⟨0, 0⟩).CallCount = -(2 ^ 31) ∧
    (2 ^ 30 : Int) + 2 ^ 30 = 2 ^ 31 ∧
    (-(2 ^ 31) : Int) ≠ 2 ^ 31 := by
  refine ⟨?_, by norm_num, by norm_num⟩
  decide

/-- C1 amended: for every slot the Flush loop reaches (index below both the
published count and the local size), a nonzero slot is fetch-added into the
matching global counter — with int64/int32 two's-complement wraparound —
and then zeroed, while zero slots leave both sides unchanged; consequently
along any sequence of flushes, resets and registrations, a counter that
starts at zero always equals the wraparound (mod 2^64 for nanoseconds, mod
2^32 for calls) of the sum of all deltas flushed for its id since the last
reset, and equals that sum exactly whenever it fits the signed range. -/
theorem flush_publishes_and_counters_track_sums :
    (∀ (reg : RegistryImpl) (acc : ThreadAccumulator) (i : Nat),
      i < reg.Count.toNat → i < reg.Counters.length → i < acc.Counters.length →
      (((acc.Counters.getD i ⟨0, 0⟩).Elapsed ≠ 0 ∨
          (acc.Counters.getD i ⟨0, 0⟩).Calls ≠ 0) →
        (Flush reg acc).1.Counters.getD i ⟨0, 0⟩ =
          ⟨wrap64 ((reg.Counters.getD i ⟨0, 0⟩).TotalNanoseconds +
              (acc.Counters.getD i ⟨0, 0⟩).Elapsed),
            wrap32 ((reg.Counters.getD i ⟨0, 0⟩).CallCount +
              (acc.Counters.getD i ⟨0, 0⟩).Calls)⟩ ∧
        (Flush reg acc).2.Counters.getD i ⟨0, 0⟩ = ⟨0, 0⟩) ∧
      (acc.Counters.getD i ⟨0, 0⟩ = ⟨0, 0⟩ →
        (Flush reg acc).1.Counters.getD i ⟨0, 0⟩ = reg.Counters.getD i ⟨0, 0⟩ ∧
        (Flush reg acc).2.Counters.getD i ⟨0, 0⟩ = acc.Counters.getD i ⟨0, 0⟩)) ∧
    (∀ (reg : RegistryImpl) (evs : List Ev) (i : Nat),
      Wf reg → i < reg.Count.toNat →
      reg.Counters.getD i ⟨0, 0⟩ = ⟨0, 0⟩ →
      ((runTrace reg evs).Counters.getD i ⟨0, 0⟩).TotalNanoseconds =
          wrap64 (elapsedSince i reg 0 evs) ∧
      ((runTrace reg evs).Counters.getD i ⟨0, 0⟩).CallCount =
          wrap32 (callsSince i reg 0 evs) ∧
      (-(2 ^ 63) ≤ elapsedSince i reg 0 evs → elapsedSince i reg 0 evs < 2 ^ 63 →
        ((runTrace reg evs).Counters.getD i ⟨0, 0⟩).TotalNanoseconds =
          elapsedSince i reg 0 evs) ∧
      (-(2 ^ 31) ≤ callsSince i reg 0 evs → callsSince i reg 0 evs < 2 ^ 31 →
        ((runTrace reg evs).Counters.getD i ⟨0, 0⟩).CallCount =
          callsSince i reg 0 evs)) := by
  constructor
  · intro reg acc i hi hgs hls
    constructor
    · intro hnz
      have hh : flushHits reg.Count.toNat reg.Counters acc.Counters i :=
        ⟨hi, hgs, hls, hnz⟩
      exact ⟨by rw [Flush_counterAt, if_pos hh], by rw [Flush_localAt, if_pos hh]⟩
    · intro hz
      have hh : ¬flushHits reg.Count.toNat reg.Counters acc.Counters i := by
        intro hc
        rcases hc.2.2.2 with he | he <;> rw [hz] at he <;> exact he rfl
      exact ⟨by rw [Flush_counterAt, if_neg hh], by rw [Flush_localAt, if_neg hh]⟩
  · intro reg evs i hwf hi hz
    have hbase : reg.Counters.getD i ⟨0, 0⟩ = ⟨wrap64 0, wrap32 0⟩ := by
      rw [wrap64_zero, wrap32_zero]
      exact hz
    have h := runTrace_counterAt i evs reg 0 0 hwf hi hbase
    refine ⟨by rw [h], by rw [h], ?_, ?_⟩
    · intro hlo hhi
      rw [h]
      exact wrap64_eq_of_range _ hlo hhi
    · intro hlo hhi
      rw [h]
      exact wrap32_eq_of_range _ hlo hhi

/-- Witness for the flush accounting: a flush of slot {5,2} publishes {5,2}
and zeroes the slot, and over the trace flush{3,1}, reset, flush{5,2} the
counter holds exactly the post-reset sums {5,2}. -/
theorem flush_publishes_and_counters_track_sums_witness :
    (Flush ⟨[("f", 0)], ["f"], [⟨0, 0⟩], 1, [], false⟩
      ⟨[⟨5, 2⟩]⟩).1.Counters.getD 0 ⟨0, 0⟩ = ⟨5, 2⟩ ∧
    (Flush ⟨[("f", 0)], ["f"], [⟨0, 0⟩], 1, [], false⟩
      ⟨[⟨5, 2⟩]⟩).2.Counters.getD 0 ⟨0, 0⟩ = ⟨0, 0⟩ ∧
    ((runTrace ⟨[("f", 0)], ["f"], [⟨0, 0⟩], 1, [], false⟩
        [Ev.flushEv ⟨[⟨3, 1⟩]⟩, Ev.resetEv, Ev.flushEv ⟨[⟨5, 2⟩]⟩]).Counters.getD 0
        ⟨0, 0⟩).TotalNanoseconds = 5 ∧
    ((runTrace ⟨[("f", 0)], ["f"], [⟨0, 0⟩], 1, [], false⟩
        [Ev.flushEv ⟨[⟨3, 1⟩]⟩, Ev.resetEv, Ev.flushEv ⟨[⟨5, 2⟩]⟩]).Counters.getD 0
        ⟨0, 0⟩).CallCount = 2 := by
  obtain ⟨hm, ht⟩ := flush_publishes_and_counters_track_sums
  have h1 := (hm ⟨[("f", 0)], ["f"], [⟨0, 0⟩], 1, [], false⟩ ⟨[⟨5, 2⟩]⟩ 0
    (by decide) (by decide) (by decide)).1 (by decide)
  have h2 := ht ⟨[("f", 0)], ["f"], [⟨0, 0⟩], 1, [], false⟩
    [Ev.flushEv ⟨[⟨3, 1⟩]⟩, Ev.resetEv, Ev.flushEv ⟨[⟨5, 2⟩]⟩] 0
    ⟨by decide, by decide, by decide, by decide⟩ (by decide) (by decide)
  refine ⟨?_, h1.2, ?_, ?_⟩
  · rw [h1.1]
    decide
  · rw [h2.2.2.1 (by decide) (by decide)]
    decide
  · rw [h2.2.2.2 (by decide) (by decide)]
    decide

lemma collectAll_fst (accs : List ThreadAccumulator) :
    ∀ reg : RegistryImpl,
      (CollectAll reg accs).1 = runTrace reg (accs.map Ev.flushEv) := by
  induction accs with
  | nil => intro reg; rfl
  | cons a as ih => intro reg; exact ih (Flush reg a).1

lemma collectAll_fields (accs : List ThreadAccumulator) :
    ∀ reg : RegistryImpl,
      (CollectAll reg accs).1.NameToId = reg.NameToId ∧
      (CollectAll reg accs).1.Count = reg.Count := by
  induction accs with
  | nil => intro reg; exact ⟨rfl, rfl⟩
  | cons a as ih => intro reg; exact ih (Flush reg a).1

lemma callsSince_flushEvs (i : Nat) (accs : List ThreadAccumulator) :
    ∀ (reg : RegistryImpl) (s : Int),
      callsSince i reg s (accs.map Ev.flushEv) =
        s + (accs.map (fun a => deltaCalls i reg a)).sum := by
  induction accs with
  | nil =>
    intro reg s
    simp [callsSince]
  | cons a as ih =>
    intro reg s
    show callsSince i (stepEv reg (Ev.flushEv a)) (s + deltaCalls i reg a)
      (as.map Ev.flushEv) = _
    rw [ih]
    have hd : ∀ a' : ThreadAccumulator,
        deltaCalls i (stepEv reg (Ev.flushEv a)) a' = deltaCalls i reg a' :=
      fun _ => rfl
    simp only [hd, List.map_cons, List.sum_cons]
    ring_nf

lemma scopedTimerCalls_single (es : List Int) :
    ∀ e c : Int, (scopedTimerCalls ⟨[⟨e, c⟩]⟩ 0 es).Counters =
      [⟨e + es.sum, c + es.length⟩] := by
  induction es with
  | nil =>
    intro e c
    simp [scopedTimerCalls]
  | cons x es ih =>
    intro e c
    have hstep : scopedTimerCall ⟨[⟨e, c⟩]⟩ 0 x = ⟨[⟨e + x, c + 1⟩]⟩ := by
      unfold scopedTimerCall EnsureCapacity
      norm_num [List.set]
    show (scopedTimerCalls (scopedTimerCall ⟨[⟨e, c⟩]⟩ 0 x) 0 es).Counters = _
    rw [hstep, ih]
    simp only [List.sum_cons, List.length_cons, List.cons.injEq,
      LocalCounters.mk.injEq, and_true]
    push_cast
    constructor <;> ring_nf

lemma scopedTimerCalls_from_nil (es : List Int) :
    (scopedTimerCalls ⟨[]⟩ 0 es).Counters.getD 0 ⟨0, 0⟩ = ⟨es.sum, es.length⟩ ∧
    (scopedTimerCalls ⟨[]⟩ 0 es).Counters.length ≤ 1 := by
  cases es with
  | nil =>
    constructor
    · show (⟨[]⟩ : ThreadAccumulator).Counters.getD 0 ⟨0, 0⟩ = _
      simp [List.getD]
    · decide
  | cons x es =>
    have hstep : scopedTimerCall ⟨[]⟩ 0 x = ⟨[⟨x, 1⟩]⟩ := by
      unfold scopedTimerCall EnsureCapacity
      norm_num [List.set, List.replicate]
    have hall : (scopedTimerCalls ⟨[]⟩ 0 (x :: es)).Counters =
        [⟨x + es.sum, 1 + es.length⟩] := by
      show (scopedTimerCalls (scopedTimerCall ⟨[]⟩ 0 x) 0 es).Counters = _
      rw [hstep, scopedTimerCalls_single]
    rw [hall]
    constructor
    · simp only [List.getD_cons_zero, List.sum_cons, List.length_cons,
        LocalCounters.mk.injEq]
      push_cast
      constructor <;> ring_nf
    · simp

/-- Each accumulator built from N scoped-timer calls contributes exactly N
to the call-count delta of counter 0 in the single-"F" registry. -/
lemma deltaCalls_scoped (N : Nat) (es : List Int) (hes : es.length = N) :
    deltaCalls 0 regF (scopedTimerCalls ⟨[]⟩ 0 es) = (N : Int) := by
  obtain ⟨hslot, hlen⟩ := scopedTimerCalls_from_nil es
  unfold deltaCalls
  by_cases hl : 0 < (scopedTimerCalls ⟨[]⟩ 0 es).Counters.length
  · rw [if_pos ⟨by decide, hl⟩, hslot, hes]
  · rw [if_neg (fun hc => hl hc.2)]
    have hlen0 : (scopedTimerCalls ⟨[]⟩ 0 es).Counters.length = 0 := by omega
    have hnil : (scopedTimerCalls ⟨[]⟩ 0 es).Counters = [] :=
      List.length_eq_zero.mp hlen0
    rw [hnil] at hslot
    have hz : (0 : Int) = (es.length : Int) :=
      congrArg LocalCounters.Calls hslot
    rw [← hes]
    omega

lemma sum_deltaCalls_scoped (N : Nat) :
    ∀ ess : List (List Int), (∀ es ∈ ess, es.length = N) →
      ((ess.map (fun es => scopedTimerCalls ⟨[]⟩ 0 es)).map
        (fun a => deltaCalls 0 regF a)).sum = (N : Int) * (ess.length : Int) := by
  intro ess
  induction ess with
  | nil =>
    intro _
    simp
  | cons es l ihl =>
    intro hall
    have h1 : deltaCalls 0 regF (scopedTimerCalls ⟨[]⟩ 0 es) = (N : Int) :=
      deltaCalls_scoped N es (hall es (by simp))
    have h2 := ihl (fun e he => hall e (by simp [he]))
    simp only [List.map_cons, List.sum_cons, h1, h2, List.length_cons]
    push_cast
    ring_nf

/-- CallCount published for "F" after CollectAll over accumulators that each
performed N scoped calls: the wrapped sum N * (number of accumulators). -/
lemma collectAll_count_core (ess : List (List Int)) (N : Nat)
    (hN : ∀ es ∈ ess, es.length = N) :
    GetFunctionCallCountByName
      ((CollectAll (RegisterFunction emptyRegistry "F").2
        (ess.map (fun es => scopedTimerCalls ⟨[]⟩ 0 es))).1) "F" =
      wrap32 ((N : Int) * (ess.length : Int)) := by
  have hreg : (RegisterFunction emptyRegistry "F").2 = regF := by decide
  rw [hreg]
  have hwf : Wf regF := ⟨by decide, by decide, by decide, by decide⟩
  have hfields := collectAll_fields
    (ess.map (fun es => scopedTimerCalls ⟨[]⟩ 0 es)) regF
  have hrt := runTrace_counterAt 0
    ((ess.map (fun es => scopedTimerCalls ⟨[]⟩ 0 es)).map Ev.flushEv) regF 0 0
    hwf (by decide) (by decide)
  have hcs : callsSince 0 regF 0
      ((ess.map (fun es => scopedTimerCalls ⟨[]⟩ 0 es)).map Ev.flushEv) =
      (N : Int) * (ess.length : Int) := by
    rw [callsSince_flushEvs, sum_deltaCalls_scoped N ess hN, zero_add]
  have hid : GetFunctionId
      ((CollectAll regF (ess.map (fun es => scopedTimerCalls ⟨[]⟩ 0 es))).1)
      "F" = 0 := by
    unfold GetFunctionId FindFunction
    rw [hfields.1]
    decide
  unfold GetFunctionCallCountByName
  rw [hid]
  unfold GetFunctionCallCount GetFunctionCount
  have hcount :
      (CollectAll regF (ess.map (fun es => scopedTimerCalls ⟨[]⟩ 0 es))).1.Count =
      1 := hfields.2
  rw [if_neg (by omega : ¬((0 : Int) < 0 ∨
    (CollectAll regF (ess.map (fun es => scopedTimerCalls ⟨[]⟩ 0 es))).1.Count ≤ 0))]
  rw [collectAll_fst]
  show ((runTrace regF
    ((ess.map (fun es => scopedTimerCalls ⟨[]⟩ 0 es)).map Ev.flushEv)).Counters.getD
      0 ⟨0, 0⟩).CallCount = _
  rw [hrt]
  show wrap32 (callsSince 0 regF 0
    ((ess.map (fun es => scopedTimerCalls ⟨[]⟩ 0 es)).map Ev.flushEv)) = _
  rw [hcs]

/-- C4 counterexample: with T = 2 threads each making N = 2^30 scoped calls
under "F", CollectAll leaves the queried call count at -2^31 (the int
CallCount wraps), not at N*T = 2^31 as the claim requires. -/
theorem collectAll_call_count_wraps_at_2_pow_31 :
    GetFunctionCallCountByName
      ((CollectAll (RegisterFunction emptyRegistry "F").2
        ([List.replicate (2 ^ 30) (0 : Int),
          List.replicate (2 ^ 30) (0 : Int)].map
          (fun es => scopedTimerCalls ⟨[]⟩ 0 es))).1) "F" = -(2 ^ 31) ∧
    ((2 ^ 30 : Nat) : Int) * 2 = 2 ^ 31 ∧
    (-(2 ^ 31) : Int) ≠ 2 ^ 31 := by
  have hN : ∀ es ∈ [List.replicate (2 ^ 30) (0 : Int),
      List.replicate (2 ^ 30) (0 : Int)], es.length = 2 ^ 30 := by
    intro es hes
    simp only [List.mem_cons, List.not_mem_nil, or_false] at hes
    rcases hes with rfl | rfl <;> exact List.length_replicate _ _
  have h := collectAll_count_core _ _ hN
  refine ⟨?_, by norm_num, by norm_num⟩
  rw [h]
  simp only [List.length_cons, List.length_nil]
  show wrap32 (((2 ^ 30 : Nat) : Int) * ((2 : Nat) : Int)) = -(2 ^ 31)
  unfold wrap32
  norm_num

/-- C4 amended: for T threads each executing N scoped-timer calls under the
one registered name "F", with all flushes serialized by CollectAll (no
reads concurrent with in-progress local writes) and N*T within the signed
32-bit range, the queried call count after CollectAll is exactly N*T —
no increment is lost or duplicated. -/
theorem collectAll_exact_call_count (T N : Nat) (ess : List (List Int))
    (hT : ess.length = T) (hN : ∀ es ∈ ess, es.length = N)
    (hrange : (N : Int) * (T : Int) < 2 ^ 31) :
    GetFunctionCallCountByName
      ((CollectAll (RegisterFunction emptyRegistry "F").2
        (ess.map (fun es => scopedTimerCalls ⟨[]⟩ 0 es))).1) "F" =
      (N : Int) * (T : Int) := by
  have h := collectAll_count_core ess N hN
  rw [hT] at h
  rw [h]
  apply wrap32_eq_of_range _ _ hrange
  have hpos : (0 : Int) ≤ (N : Int) * (T : Int) :=
    mul_nonneg (Int.natCast_nonneg _) (Int.natCast_nonneg _)
  have h31 : (0 : Int) < 2 ^ 31 := by norm_num
  linarith

/-- Witness for the exact count: T = 3 accumulators of N = 2 scoped calls
each yield a call count of exactly 6 after CollectAll. -/
theorem collectAll_exact_call_count_witness :
    GetFunctionCallCountByName
      ((CollectAll (RegisterFunction emptyRegistry "F").2
        ([[1, 2], [3, 4], [5, 6]].map
          (fun es => scopedTimerCalls ⟨[]⟩ 0 es))).1) "F" = 6 := by
  have h := collectAll_exact_call_count 3 2 [[1, 2], [3, 4], [5, 6]]
    (by decide) (by decide) (by decide)
  rw [h]
  norm_num

lemma string_data_append (a b : String) : (a ++ b).data = a.data ++ b.data := rfl

lemma string_append_empty (a : String) : a ++ "" = a :=
  congrArg String.mk (List.append_nil a.data)

lemma entriesString_data_decomp (fmt : Int → String) :
    ∀ (l : List (String × FunctionCounters)) (p : String × FunctionCounters),
      p ∈ l → ∃ u v : List Char,
        (entriesString fmt l).data =
          u ++ ((entryString fmt p.1 p.2).data ++ v) := by
  intro l
  induction l with
  | nil =>
    intro p hp
    cases hp
  | cons q l ih =>
    intro p hp
    have hd : (entriesString fmt (q :: l)).data =
        (entryString fmt q.1 q.2).data ++ (entriesString fmt l).data := rfl
    rcases List.mem_cons.mp hp with heq | hm
    · exact ⟨[], (entriesString fmt l).data, by rw [hd, heq]; simp⟩
    · obtain ⟨u, v, huv⟩ := ih p hm
      exact ⟨(entryString fmt q.1 q.2).data ++ u, v,
        by rw [hd, huv]; simp [List.append_assoc]⟩

lemma entryString_data_pos (fmt : Int → String) (name : String)
    (c : FunctionCounters) (h : 0 < c.CallCount) :
    (entryString fmt name c).data =
      (name ++ ":\n" ++ "  Total calls:   " ++ toString c.CallCount ++ "\n" ++
        "  Total time:    " ++ fmt c.TotalNanoseconds ++ " s\n").data ++
      (("  Avg per call:  " ++ toString (c.TotalNanoseconds.tdiv c.CallCount) ++
        " ns\n").data ++ ("\n" : String).data) := by
  unfold entryString
  rw [if_pos h]
  simp only [string_data_append, List.append_assoc]

/-- C10: whenever a reported function has a positive call count, the text
produced by GetResultsAsString contains the line "  Avg per call:  v ns"
with v the truncating (toward zero) integer division of total nanoseconds
by call count; with a zero call count the function's entry omits the
average line entirely; and this truncated value can differ from
GetFunctionAverageTime, which divides exactly — at 3 ns over 2 calls the
report shows 1 while GetFunctionAverageTime returns 3/2. -/
theorem resultsString_avg_truncating (fmt : Int → String) (reg : RegistryImpl)
    (p : String × FunctionCounters) (hp : p ∈ entries reg) :
    (0 < p.2.CallCount →
      ∃ u v : List Char, (GetResultsAsString fmt reg).data =
        u ++ (("  Avg per call:  " ++
          toString (p.2.TotalNanoseconds.tdiv p.2.CallCount) ++ " ns\n").data ++ v)) ∧
    (p.2.CallCount = 0 →
      entryString fmt p.1 p.2 =
        p.1 ++ ":\n" ++ "  Total calls:   " ++ toString p.2.CallCount ++ "\n" ++
        "  Total time:    " ++ fmt p.2.TotalNanoseconds ++ " s\n" ++ "\n") ∧
    (GetFunctionAverageTime regAvgDemo 0 = 3 / 2 ∧
      Int.tdiv 3 2 = 1 ∧ ((1 : ℚ) ≠ 3 / 2)) := by
  refine ⟨?_, ?_,
    by norm_num [GetFunctionAverageTime, GetFunctionCount, regAvgDemo,
      List.getD_cons_zero],
    by decide, by norm_num⟩
  · intro h
    obtain ⟨u, v, huv⟩ := entriesString_data_decomp fmt (entries reg) p hp
    rw [entryString_data_pos fmt p.1 p.2 h] at huv
    refine ⟨("\n=== Function Timing Results ===\n\n" : String).data ++
      (u ++ (p.1 ++ ":\n" ++ "  Total calls:   " ++ toString p.2.CallCount ++
        "\n" ++ "  Total time:    " ++ fmt p.2.TotalNanoseconds ++
        " s\n").data), ("\n" : String).data ++ v, ?_⟩
    have hfull : (GetResultsAsString fmt reg).data =
        ("\n=== Function Timing Results ===\n\n" : String).data ++
          (entriesString fmt (entries reg)).data := rfl
    rw [hfull, huv]
    simp [List.append_assoc]
  · intro h0
    have hneg : ¬ 0 < p.2.CallCount := by omega
    unfold entryString
    rw [if_neg hneg, string_append_empty]

/-- Witness: in the report for the 3 ns / 2 calls registry the average line
shows the truncated value 1, while GetFunctionAverageTime gives 3/2. -/
theorem resultsString_avg_truncating_witness :
    (∃ u v : List Char,
      (GetResultsAsString (fun _ => "t") regAvgDemo).data =
        u ++ (("  Avg per call:  " ++ toString (Int.tdiv 3 2) ++ " ns\n").data ++ v)) ∧
    GetFunctionAverageTime regAvgDemo 0 = 3 / 2 := by
  have h := resultsString_avg_truncating (fun _ => "t") regAvgDemo
    ("g", ⟨3, 2⟩) (by decide)
  exact ⟨h.1 (by decide), h.2.2.1⟩

end PerfCounters
